import Mathlib

/-!
# Verification of the map tile tree / imagery provider pipeline

A shallow embedding, in Lean 4, of the quadtree/imagery-provider core of the
repository (`WebMercatorTileTree.ts`): `QuadId` (de)serialization, the Bing
quadkey construction, coverage/attribution matching, tile loading and its
error handling, selected-tile ordering, tile tree identity comparison, and the
missing-tile fingerprint test.

JavaScript strings are embedded as `List Char` (UTF-16 code units at the level
used here), and JavaScript numbers at the points where the code can observe
`NaN` as the type `JSNum` below; where the code only ever holds continuous
metadata values (latitudes, longitudes, ground bias) they are embedded as `ℚ`,
and loop counters/bit patterns as `Nat`/`Int` with explicit two's-complement
wraparound where the JavaScript 32-bit bitwise semantics matters.
-/

/-- A JavaScript number as observed by the quadtree code: either `NaN`
(produced by a failed `parseInt`) or an integer value. The source only ever
stores integer-valued numbers (or `NaN`) in `QuadId` fields. -/
inductive JSNum where
  | nan : JSNum
  | ofInt : Int → JSNum
deriving DecidableEq

/-- JavaScript `a < b`: false whenever either side is `NaN`. -/
def jsLt : JSNum → JSNum → Bool
  | .ofInt a, .ofInt b => a < b
  | _, _ => false

/-- JavaScript `a >= b`: false whenever either side is `NaN`. -/
def jsGe : JSNum → JSNum → Bool
  | .ofInt a, .ofInt b => b ≤ a
  | _, _ => false

/-- JavaScript `a + b` on these values (`NaN` propagates). -/
def jsAdd : JSNum → JSNum → JSNum
  | .ofInt a, .ofInt b => .ofInt (a + b)
  | _, _ => .nan

/-- JavaScript `a < b` against a plain (rational) number `b`. -/
def jsLtQ : JSNum → ℚ → Bool
  | .nan, _ => false
  | .ofInt a, b => decide ((a : ℚ) < b)

/-- JavaScript `a > b` against a plain (rational) number `b`. -/
def jsGtQ : JSNum → ℚ → Bool
  | .nan, _ => false
  | .ofInt a, b => decide (b < (a : ℚ))

/-- The whitespace characters skipped by JavaScript `parseInt` (the ASCII ones;
the code never feeds non-ASCII whitespace to `parseInt`). -/
def isJsSpace (c : Char) : Bool :=
  c = ' ' || c = '\t' || c = '\n' || c = '\r' || c = '\x0b' || c = '\x0c'

/-- A decimal digit character `'0'..'9'`. -/
def isDecimalDigit (c : Char) : Bool :=
  48 ≤ c.toNat && c.toNat ≤ 57

/-- Numeric value of a list of decimal digit characters, most significant
first. -/
def digitsVal (ds : List Char) : Nat :=
  ds.foldl (fun a c => 10 * a + (c.toNat - 48)) 0

/-- JavaScript `parseInt(s, 10)`: skip leading whitespace, an optional sign,
then the longest prefix of decimal digits; `NaN` if that prefix is empty.
(Values here are exact: the code only parses the short ids it itself
produced, all far below the precision limit of doubles.) -/
def parseIntTen (s : List Char) : JSNum :=
  let s1 := s.dropWhile isJsSpace
  match s1 with
  | [] => .nan
  | c :: rest =>
    if c = '-' then
      let ds := rest.takeWhile isDecimalDigit
      if ds = [] then .nan else .ofInt (-(digitsVal ds : Int))
    else if c = '+' then
      let ds := rest.takeWhile isDecimalDigit
      if ds = [] then .nan else .ofInt (digitsVal ds)
    else
      let ds := s1.takeWhile isDecimalDigit
      if ds = [] then .nan else .ofInt (digitsVal ds)

/-- Decimal digit characters of `n`, most significant first (the JavaScript
`Number.prototype.toString` output for a non-negative integer). -/
def natDigits (n : Nat) : List Char :=
  if h : n < 10 then [Char.ofNat (48 + n)]
  else natDigits (n / 10) ++ [Char.ofNat (48 + n % 10)]
termination_by n
decreasing_by
  exact Nat.div_lt_self (by omega) (by omega)

/-- JavaScript string conversion of an integer-valued number. -/
def jsIntToString (i : Int) : List Char :=
  if i < 0 then '-' :: natDigits i.natAbs else natDigits i.toNat

/-- JavaScript string conversion of a `JSNum` (`NaN` prints as `"NaN"`). -/
def jsNumToString : JSNum → List Char
  | .nan => "NaN".toList
  | .ofInt i => jsIntToString i

/-- JavaScript `s.split(sep)` for a one-character separator: splits at every
occurrence of `sep`, keeping empty pieces, and `"".split(sep)` is `[""]`. -/
def jsSplit (sep : Char) (s : List Char) : List (List Char) :=
  s.foldr
    (fun c acc =>
      match acc with
      | [] => [[c]]
      | cur :: rest => if c = sep then [] :: cur :: rest else (c :: cur) :: rest)
    [[]]

/-- `QuadId` (source `WebMercatorTileTree.ts`): a quadtree tile address. -/
structure QuadId where
  level : JSNum
  column : JSNum
  row : JSNum
deriving DecidableEq

/-- `QuadId.isValid`: the source getter `this.level >= 0`. -/
def QuadId.isValid (q : QuadId) : Bool :=
  jsGe q.level (.ofInt 0)

/-- `QuadId.createFromContentId`: split on `"_"`; if the part count is not 3,
return the invalid sentinel `QuadId(-1, -1, -1)` (the source `assert(false, ...)`
is a debug-build no-op, nothing is thrown); otherwise `parseInt` each part. -/
def QuadId.createFromContentId (stringId : List Char) : QuadId :=
  let idParts := jsSplit '_' stringId
  if 3 ≠ idParts.length then
    ⟨.ofInt (-1), .ofInt (-1), .ofInt (-1)⟩
  else
    ⟨parseIntTen (idParts.getD 0 []), parseIntTen (idParts.getD 1 []),
      parseIntTen (idParts.getD 2 [])⟩

/-- `QuadId.contentId` getter: `this.level + "_" + this.column + "_" + this.row`. -/
def QuadId.contentId (q : QuadId) : List Char :=
  jsNumToString q.level ++ '_' :: (jsNumToString q.column ++ '_' :: jsNumToString q.row)

/-! ## Lemmas about digit printing and parsing -/

theorem natDigits_toNat_bounds (n : Nat) :
    ∀ c ∈ natDigits n, 48 ≤ c.toNat ∧ c.toNat ≤ 57 := by
  induction n using Nat.strong_induction_on with
  | _ n ih =>
    rw [natDigits]
    split
    · intro c hc
      simp only [List.mem_singleton] at hc
      subst hc
      rename_i h
      interval_cases n <;> simp
    · intro c hc
      rename_i h
      rcases List.mem_append.mp hc with h1 | h1
      · exact ih (n / 10) (Nat.div_lt_self (by omega) (by omega)) c h1
      · simp only [List.mem_singleton] at h1
        subst h1
        have h10 : n % 10 < 10 := Nat.mod_lt _ (by omega)
        interval_cases h : n % 10 <;> simp

theorem natDigits_ne_nil (n : Nat) : natDigits n ≠ [] := by
  rw [natDigits]
  split
  · simp
  · simp

theorem digitsVal_append_singleton (xs : List Char) (c : Char) :
    digitsVal (xs ++ [c]) = 10 * digitsVal xs + (c.toNat - 48) := by
  simp [digitsVal, List.foldl_append]

theorem digitsVal_natDigits (n : Nat) : digitsVal (natDigits n) = n := by
  induction n using Nat.strong_induction_on with
  | _ n ih =>
    rw [natDigits]
    split
    · rename_i h
      simp only [digitsVal, List.foldl_cons, List.foldl_nil]
      interval_cases n <;> simp
    · rename_i h
      rw [digitsVal_append_singleton, ih (n / 10) (Nat.div_lt_self (by omega) (by omega))]
      have h10 : n % 10 < 10 := Nat.mod_lt _ (by omega)
      have hchar : (Char.ofNat (48 + n % 10)).toNat = 48 + n % 10 := by
        interval_cases h' : n % 10 <;> simp
      omega

theorem takeWhile_eq_self_of_all {p : Char → Bool} {l : List Char}
    (h : ∀ c ∈ l, p c = true) : l.takeWhile p = l := by
  induction l with
  | nil => rfl
  | cons c cs ih =>
    have hc := h c (by simp)
    simp only [List.takeWhile_cons, hc, if_true, List.cons.injEq, true_and]
    exact ih fun d hd => h d (by simp [hd])

theorem parseIntTen_natDigits (n : Nat) : parseIntTen (natDigits n) = .ofInt n := by
  obtain ⟨c, cs, hcons⟩ : ∃ c cs, natDigits n = c :: cs := by
    cases h : natDigits n with
    | nil => exact absurd h (natDigits_ne_nil n)
    | cons c cs => exact ⟨c, cs, rfl⟩
  have hbounds := natDigits_toNat_bounds n
  have hc : 48 ≤ c.toNat ∧ c.toNat ≤ 57 := by
    apply hbounds; rw [hcons]; simp
  have hspace : isJsSpace c = false := by
    simp only [isJsSpace, Bool.or_eq_false_iff, decide_eq_false_iff_not]
    refine ⟨⟨⟨⟨⟨?_, ?_⟩, ?_⟩, ?_⟩, ?_⟩, ?_⟩ <;>
      (intro h; subst h; simp at hc)
  have hminus : (c = '-') = False := by
    simp only [eq_iff_iff, iff_false]
    intro h; subst h; simp at hc
  have hplus : (c = '+') = False := by
    simp only [eq_iff_iff, iff_false]
    intro h; subst h; simp at hc
  have htake : (natDigits n).takeWhile isDecimalDigit = natDigits n := by
    apply takeWhile_eq_self_of_all
    intro d hd
    have := hbounds d hd
    simp [isDecimalDigit]; omega
  rw [parseIntTen, hcons]
  simp only [List.dropWhile_cons, hspace, if_false, Bool.false_eq_true, hminus, hplus,
    if_false]
  rw [← hcons, htake, if_neg (by rw [hcons]; simp), digitsVal_natDigits]

theorem parseIntTen_jsIntToString (i : Int) : parseIntTen (jsIntToString i) = .ofInt i := by
  rw [jsIntToString]
  split
  · rename_i hneg
    have hbounds := natDigits_toNat_bounds i.natAbs
    have htake : (natDigits i.natAbs).takeWhile isDecimalDigit = natDigits i.natAbs := by
      apply takeWhile_eq_self_of_all
      intro d hd
      have := hbounds d hd
      simp [isDecimalDigit]; omega
    rw [parseIntTen]
    simp only [List.dropWhile_cons, show isJsSpace '-' = false by decide, if_false,
      Bool.false_eq_true, if_pos rfl, if_true]
    rw [htake, if_neg (natDigits_ne_nil _), digitsVal_natDigits]
    congr 1
    omega
  · rename_i hpos
    rw [parseIntTen_natDigits]
    congr 1
    omega

theorem jsIntToString_chars (i : Int) :
    ∀ c ∈ jsIntToString i, c.toNat = 45 ∨ (48 ≤ c.toNat ∧ c.toNat ≤ 57) := by
  intro c hc
  rw [jsIntToString] at hc
  split at hc
  · rcases List.mem_cons.mp hc with h | h
    · subst h; left; rfl
    · right; exact natDigits_toNat_bounds _ c h
  · right; exact natDigits_toNat_bounds _ c hc

/-! ## Lemmas about `jsSplit` -/

theorem jsSplit_ne_nil (sep : Char) (s : List Char) : jsSplit sep s ≠ [] := by
  induction s with
  | nil => simp [jsSplit]
  | cons c cs ih =>
    rw [jsSplit, List.foldr_cons]
    rcases h : jsSplit sep cs with _ | ⟨cur, rest⟩
    · exact absurd h ih
    · rw [jsSplit] at h
      rw [h]
      show (if c = sep then [] :: cur :: rest else (c :: cur) :: rest) ≠ []
      split <;> simp

theorem jsSplit_cons_sep (sep : Char) (s : List Char) :
    jsSplit sep (sep :: s) = [] :: jsSplit sep s := by
  rw [jsSplit, List.foldr_cons]
  rcases h : jsSplit sep s with _ | ⟨cur, rest⟩
  · exact absurd h (jsSplit_ne_nil sep s)
  · rw [jsSplit] at h
    rw [h]
    show (if sep = sep then [] :: cur :: rest else (sep :: cur) :: rest) = [] :: cur :: rest
    simp

theorem jsSplit_cons_ne (sep c : Char) (s : List Char) (hc : c ≠ sep) :
    jsSplit sep (c :: s) =
      (c :: (jsSplit sep s).headD []) :: (jsSplit sep s).tail := by
  rw [jsSplit, List.foldr_cons]
  rcases h : jsSplit sep s with _ | ⟨cur, rest⟩
  · exact absurd h (jsSplit_ne_nil sep s)
  · rw [jsSplit] at h
    rw [h]
    show (if c = sep then [] :: cur :: rest else (c :: cur) :: rest) = (c :: cur) :: rest
    simp [hc]

theorem jsSplit_append_no_sep (sep : Char) (x s : List Char)
    (hx : ∀ c ∈ x, c ≠ sep) :
    jsSplit sep (x ++ s) =
      (x ++ (jsSplit sep s).headD []) :: (jsSplit sep s).tail := by
  induction x with
  | nil =>
    simp only [List.nil_append]
    rcases h : jsSplit sep s with _ | ⟨cur, rest⟩
    · exact absurd h (jsSplit_ne_nil sep s)
    · simp
  | cons c cs ih =>
    have hc : c ≠ sep := hx c (by simp)
    rw [List.cons_append, jsSplit_cons_ne sep c (cs ++ s) hc,
      ih fun d hd => hx d (by simp [hd])]
    simp

theorem jsSplit_three_parts (sep : Char) (s1 s2 s3 : List Char)
    (h1 : ∀ c ∈ s1, c ≠ sep) (h2 : ∀ c ∈ s2, c ≠ sep) (h3 : ∀ c ∈ s3, c ≠ sep) :
    jsSplit sep (s1 ++ sep :: (s2 ++ sep :: s3)) = [s1, s2, s3] := by
  have e3 : jsSplit sep s3 = [s3] := by
    have := jsSplit_append_no_sep sep s3 [] h3
    simpa [jsSplit] using this
  have e23 : jsSplit sep (s2 ++ sep :: s3) = [s2, s3] := by
    rw [jsSplit_append_no_sep sep s2 (sep :: s3) h2, jsSplit_cons_sep, e3]
    simp
  rw [jsSplit_append_no_sep sep s1 (sep :: (s2 ++ sep :: s3)) h1,
    jsSplit_cons_sep, e23]
  simp

/-! ## C1 and C3 -/

/-- C1: for every `QuadId` with integer `level ≥ 0` and integer `column` and
`row`, `QuadId.createFromContentId (q.contentId)` reproduces `q`: the
`contentId` getter and `createFromContentId` are mutually inverse on valid
ids. -/
theorem quadId_contentId_roundTrip (level column row : Int) (h : 0 ≤ level) :
    QuadId.createFromContentId
        (QuadId.contentId ⟨.ofInt level, .ofInt column, .ofInt row⟩) =
      ⟨.ofInt level, .ofInt column, .ofInt row⟩ := by
  have hchars : ∀ i : Int, ∀ c ∈ jsIntToString i, c ≠ '_' := by
    intro i c hc heq
    rcases jsIntToString_chars i c hc with h45 | ⟨hlo, hhi⟩ <;> (subst heq; simp at * <;> omega)
  rw [QuadId.contentId, QuadId.createFromContentId]
  simp only [jsNumToString]
  rw [jsSplit_three_parts '_' _ _ _ (hchars level) (hchars column) (hchars row)]
  simp only [List.length_cons, List.length_nil]
  rw [if_neg (by omega)]
  simp [List.getD, parseIntTen_jsIntToString]

theorem quadId_contentId_roundTrip_witness :
    0 ≤ (3 : Int) ∧
      QuadId.createFromContentId
          (QuadId.contentId ⟨.ofInt 3, .ofInt (-5), .ofInt 7⟩) =
        ⟨.ofInt 3, .ofInt (-5), .ofInt 7⟩ :=
  ⟨by decide, quadId_contentId_roundTrip 3 (-5) 7 (by decide)⟩

/-- C3 (counterexample): `"5_x_3"` splits on `'_'` into exactly three parts of
which the middle one, `"x"`, is not numeric (`parseInt` yields `NaN`); the
claim then demands `level = -1` and `isValid === false`, but the code produces
`level = 5` and `isValid === true`. -/
theorem createFromContentId_nonNumeric_counterexample :
    (jsSplit '_' "5_x_3".toList).length = 3 ∧
      parseIntTen "x".toList = .nan ∧
      (QuadId.createFromContentId "5_x_3".toList).level ≠ .ofInt (-1) ∧
      (QuadId.createFromContentId "5_x_3".toList).isValid = true := by
  refine ⟨by decide, by decide, by decide, by decide⟩

/-- C3 (amended): for every string that does not split on `'_'` into exactly
three parts, `QuadId.createFromContentId` returns the sentinel
`QuadId(-1, -1, -1)` (so `isValid === false`) and never throws; strings with
exactly three parts are parsed field-wise by `parseInt` and may carry `NaN`
or partially-parsed fields instead. In particular
`createFromContentId("bad")` yields a quad with `isValid === false`. -/
theorem createFromContentId_wrongPartCount (s : List Char)
    (h : (jsSplit '_' s).length ≠ 3) :
    QuadId.createFromContentId s = ⟨.ofInt (-1), .ofInt (-1), .ofInt (-1)⟩ ∧
      (QuadId.createFromContentId s).isValid = false := by
  have he : QuadId.createFromContentId s = ⟨.ofInt (-1), .ofInt (-1), .ofInt (-1)⟩ := by
    rw [QuadId.createFromContentId, if_pos (by omega)]
  exact ⟨he, by rw [he]; decide⟩

theorem createFromContentId_wrongPartCount_witness :
    QuadId.createFromContentId "bad".toList =
        ⟨.ofInt (-1), .ofInt (-1), .ofInt (-1)⟩ ∧
      (QuadId.createFromContentId "bad".toList).isValid = false :=
  createFromContentId_wrongPartCount "bad".toList (by decide)

/-! ## Bing quadkey construction (`BingImageryProvider.tileXYToQuadKey`) -/

/-- JavaScript `((x & (1 << s)) !== 0)`: the shift count is reduced mod 32 and
both operands are converted to 32-bit integers, so the test reads bit
`s % 32` of the low 32 bits of `x` (two's complement for negative `x`). -/
def jsBitTest (x : Int) (s : Nat) : Bool :=
  Nat.testBit (x % (2 ^ 32 : Int)).toNat (s % 32)

/-- One digit of the quadkey for mask bit `s`: start at `0x30` (`'0'`), add 1
if the `tileX` bit is set and 2 if the `tileY` bit is set (the source's two
`digit++`). -/
def quadKeyDigit (tileX tileY : Int) (s : Nat) : Char :=
  Char.ofNat (0x30 + (if jsBitTest tileX s then 1 else 0) +
    (if jsBitTest tileY s then 2 else 0))

/-- `BingImageryProvider.tileXYToQuadKey`: the loop
`for (i = zoomLevel; i > 0; i--)` appends the digit for mask `1 << (i - 1)`,
so the first character corresponds to bit `zoomLevel - 1`. (The source's
`assert(0 !== zoomLevel)` is a debug no-op; `constructUrl` passes
`column, row, zoomLevel` in that order.) -/
def tileXYToQuadKey (tileX tileY : Int) : Nat → List Char
  | 0 => []
  | i + 1 => quadKeyDigit tileX tileY i :: tileXYToQuadKey tileX tileY i

/-- The digit formula as the claim words it: `'0' + 2*bit(row,i) + bit(column,i)`
with mathematical (arbitrary-precision) bits. -/
def claimQuadKeyDigit (column row : Nat) (i : Nat) : Char :=
  Char.ofNat (48 + 2 * (if Nat.testBit row i then 1 else 0) +
    (if Nat.testBit column i then 1 else 0))

/-- C2 (counterexample): the Bing quadkey for `zoomLevel = 2, column = 1,
`row = 1` is `"03"` (most-significant digit first: bit 1 of column and row is
0, bit 0 contributes 1+2), not `"30"` as the claim states. -/
theorem tileXYToQuadKey_30_counterexample :
    tileXYToQuadKey 1 1 2 = "03".toList ∧ tileXYToQuadKey 1 1 2 ≠ "30".toList := by
  refine ⟨by decide, by decide⟩

theorem jsBitTest_eq_testBit (x : Nat) (s : Nat) (hs : s < 32) :
    jsBitTest x s = Nat.testBit x s := by
  rw [jsBitTest]
  have hx : ((x : Int) % (2 ^ 32 : Int)).toNat = x % 2 ^ 32 := by
    omega
  rw [hx, Nat.mod_eq_of_lt hs, Nat.testBit_mod_two_pow]
  simp [hs]

theorem quadKeyDigit_eq_claim (column row : Nat) (s : Nat) (hs : s < 32) :
    quadKeyDigit column row s = claimQuadKeyDigit column row s := by
  rw [quadKeyDigit, claimQuadKeyDigit, jsBitTest_eq_testBit column s hs,
    jsBitTest_eq_testBit row s hs]
  rcases Nat.testBit column s <;> rcases Nat.testBit row s <;> rfl

/-- C2 (amended): the Bing quadkey for `zoomLevel = 1, column = 1, row = 1` is
`"3"`, and for `zoomLevel = 2, column = 1, row = 1` it is `"03"`; in general,
for every zoom level `1 ≤ z ≤ 32` and all non-negative `column` and `row`,
`tileXYToQuadKey` produces a string of exactly `z` base-4 digits,
most-significant digit first, where the digit at bit position `i` (counting
down from `z - 1` to `0`) equals `'0' + 2*bit(row,i) + bit(column,i)`. (For
`z ≥ 33` the JavaScript `1 << (i - 1)` shift count wraps mod 32, so the claim's
arbitrary-precision digit formula no longer describes the code.) -/
theorem tileXYToQuadKey_spec (column row : Nat) (z : Nat) (h1 : 1 ≤ z) (h2 : z ≤ 32) :
    tileXYToQuadKey column row z =
        ((List.range z).reverse).map (claimQuadKeyDigit column row) ∧
      (tileXYToQuadKey column row z).length = z ∧
      tileXYToQuadKey 1 1 1 = "3".toList ∧
      tileXYToQuadKey 1 1 2 = "03".toList := by
  have main : ∀ n : Nat, n ≤ 32 →
      tileXYToQuadKey column row n =
        ((List.range n).reverse).map (claimQuadKeyDigit column row) := by
    intro n
    induction n with
    | zero => intro _; simp [tileXYToQuadKey]
    | succ m ih =>
      intro hm
      rw [tileXYToQuadKey, ih (by omega), List.range_succ, List.reverse_append,
        List.reverse_singleton, List.singleton_append, List.map_cons,
        quadKeyDigit_eq_claim column row m (by omega)]
  refine ⟨main z h2, ?_, by decide, by decide⟩
  rw [main z h2]
  simp

theorem tileXYToQuadKey_spec_witness :
    tileXYToQuadKey 1 1 2 =
        ((List.range 2).reverse).map (claimQuadKeyDigit 1 1) ∧
      (tileXYToQuadKey 1 1 2).length = 2 ∧
      tileXYToQuadKey 1 1 1 = "3".toList ∧
      tileXYToQuadKey 1 1 2 = "03".toList :=
  tileXYToQuadKey_spec 1 1 2 (by decide) (by decide)

/-! ## Coverage and attribution matching -/

/-- A geodetic position as produced by the tiling scheme (longitude and
latitude in radians); coordinates are embedded as `ℚ`. -/
structure Cartographic where
  longitude : ℚ
  latitude : ℚ
deriving DecidableEq

/-- Modelled from the spec: `MapTilingScheme` (its source file,
`MapTilingScheme.ts`, is not under `src/`) is "a mapping between quadtree
addresses, geodetic coordinates, and a normalized pixel-fraction space"; the
only operation used here is `tileXYToCartographic(xColumn, yRow, level)`,
kept abstract as a function field. -/
structure MapTilingScheme where
  tileXYToCartographic : JSNum → JSNum → JSNum → Cartographic

/-- A 2d range; `ofTwoPoints` models the external geometry-core sequence
`Range2d.createNull()` followed by `extendXY` with each of the two points:
the result is the componentwise bounding box. -/
structure Range2d where
  lowX : ℚ
  lowY : ℚ
  highX : ℚ
  highY : ℚ
deriving DecidableEq

def Range2d.ofTwoPoints (x1 y1 x2 y2 : ℚ) : Range2d :=
  ⟨min x1 x2, min y1 y2, max x1 x2, max y1 y2⟩

/-- `QuadId.getLatLongRange`: project this tile's corner and the diagonally
adjacent tile's corner through the tiling scheme and extend a null range by
both, converting radians to degrees. `degreesPerRadian` is the external
geometry-core constant `Angle.degreesPerRadian` (`180/π`), kept as a
parameter since this embedding works over `ℚ`; no claim depends on its
value. -/
def QuadId.getLatLongRange (q : QuadId) (mapTilingScheme : MapTilingScheme)
    (degreesPerRadian : ℚ) : Range2d :=
  let c1 := mapTilingScheme.tileXYToCartographic q.column q.row q.level
  let c2 := mapTilingScheme.tileXYToCartographic (jsAdd q.column (.ofInt 1))
    (jsAdd q.row (.ofInt 1)) q.level
  Range2d.ofTwoPoints (c1.longitude * degreesPerRadian) (c1.latitude * degreesPerRadian)
    (c2.longitude * degreesPerRadian) (c2.latitude * degreesPerRadian)

/-- `Coverage`: one range of geography and tile zoom levels for a Bing data
provider (constructor argument order as in the source). -/
structure Coverage where
  lowerLeftLatitude : ℚ
  lowerLeftLongitude : ℚ
  upperRightLatitude : ℚ
  upperRightLongitude : ℚ
  minimumZoomLevel : ℚ
  maximumZoomLevel : ℚ
deriving DecidableEq

/-- `Coverage.overlaps`: reject levels outside `[minimumZoomLevel,
maximumZoomLevel]`, then reject when the quad's lat/long range misses the
coverage box on any side, else accept. -/
def Coverage.overlaps (cov : Coverage) (quadId : QuadId)
    (tilingScheme : MapTilingScheme) (degreesPerRadian : ℚ) : Bool :=
  let range := quadId.getLatLongRange tilingScheme degreesPerRadian
  if jsLtQ quadId.level cov.minimumZoomLevel then false
  else if jsGtQ quadId.level cov.maximumZoomLevel then false
  else if range.lowX > cov.upperRightLongitude then false
  else if range.lowY > cov.upperRightLatitude then false
  else if range.highX < cov.lowerLeftLongitude then false
  else if range.highY < cov.lowerLeftLatitude then false
  else true

/-- The claim's "inclusive axis-aligned box intersection test": the quad's
range and the coverage box intersect (are not disjoint) with inclusive
bounds. -/
def boxIntersectsInclusive (range : Range2d) (cov : Coverage) : Prop :=
  range.lowX ≤ cov.upperRightLongitude ∧ range.lowY ≤ cov.upperRightLatitude ∧
    cov.lowerLeftLongitude ≤ range.highX ∧ cov.lowerLeftLatitude ≤ range.highY

/-- C4: `Coverage.overlaps` returns false whenever `quadId.level < minZoom` or
`quadId.level > maxZoom` (regardless of geographic overlap), and otherwise
returns true exactly when the quad's geodetic lat/long range and the
coverage's box intersect under the inclusive axis-aligned box test (so false
exactly when they are disjoint, and in particular true for a quad fully
inside the box at a zoom level within bounds). -/
theorem coverage_overlaps_spec (cov : Coverage) (quadId : QuadId)
    (tilingScheme : MapTilingScheme) (degreesPerRadian : ℚ) :
    cov.overlaps quadId tilingScheme degreesPerRadian = true ↔
      jsLtQ quadId.level cov.minimumZoomLevel = false ∧
        jsGtQ quadId.level cov.maximumZoomLevel = false ∧
        boxIntersectsInclusive (quadId.getLatLongRange tilingScheme degreesPerRadian) cov := by
  rw [Coverage.overlaps, boxIntersectsInclusive]
  split_ifs with hz1 hz2 hx1 hy1 hx2 hy2
  · simp [hz1]
  · simp [hz2]
  · simp only [Bool.false_eq_true, false_iff]
    rintro ⟨-, -, h1, h2, h3, h4⟩
    exact absurd h1 (not_le_of_lt hx1)
  · simp only [Bool.false_eq_true, false_iff]
    rintro ⟨-, -, h1, h2, h3, h4⟩
    exact absurd h2 (not_le_of_lt hy1)
  · simp only [Bool.false_eq_true, false_iff]
    rintro ⟨-, -, h1, h2, h3, h4⟩
    exact absurd h3 (not_le_of_lt hx2)
  · simp only [Bool.false_eq_true, false_iff]
    rintro ⟨-, -, h1, h2, h3, h4⟩
    exact absurd h4 (not_le_of_lt hy2)
  · simp only [true_iff]
    exact ⟨by simpa using hz1, by simpa using hz2,
      le_of_not_lt hx1, le_of_not_lt hy1, le_of_not_lt hx2, le_of_not_lt hy2⟩

/-- The aspects of a `Tile` (external tile engine class) that this code reads:
its serialized quadtree content id, its quadtree depth, and whether it is
still loading. -/
structure Tile where
  contentId : List Char
  depth : Nat
  isLoading : Bool
deriving DecidableEq

/-- `BingAttribution`: the copyright message and coverage list of one of
Bing's data providers. -/
structure BingAttribution where
  copyrightMessage : List Char
  coverages : List Coverage
deriving DecidableEq

/-- `BingAttribution.matchesTile`: true iff any contained coverage overlaps
the quad id parsed from the tile's content id (the source's early-return
`for` loop). -/
def BingAttribution.matchesTile (attr : BingAttribution) (tile : Tile)
    (tilingScheme : MapTilingScheme) (degreesPerRadian : ℚ) : Bool :=
  let quadId := QuadId.createFromContentId tile.contentId
  attr.coverages.any fun coverage => coverage.overlaps quadId tilingScheme degreesPerRadian

/-- The inner loop of `BingImageryProvider.getMatchingAttributions` for one
tile: walk the slots of `unmatchedSet` in index order; a matching, still
present attribution is appended to the matches and its slot is cleared with
`delete unmatchedSet[iAttr]` (modelled as the slot becoming `none`; the
JavaScript `delete` leaves a hole, it does not shift later indices). Returns
the matches of this pass and the updated slots. -/
def matchTileAgainstSlots (tilingScheme : MapTilingScheme) (degreesPerRadian : ℚ)
    (tile : Tile) :
    List (Option BingAttribution) → List BingAttribution × List (Option BingAttribution)
  | [] => ([], [])
  | none :: rest =>
    let r := matchTileAgainstSlots tilingScheme degreesPerRadian tile rest
    (r.1, none :: r.2)
  | some attribution :: rest =>
    let r := matchTileAgainstSlots tilingScheme degreesPerRadian tile rest
    if attribution.matchesTile tile tilingScheme degreesPerRadian then
      (attribution :: r.1, none :: r.2)
    else
      (r.1, some attribution :: r.2)

/-- The outer loop of `getMatchingAttributions` over the tiles, threading the
shrinking `unmatchedSet` through and accumulating the matches in order. -/
def collectMatchingAttributions (tilingScheme : MapTilingScheme) (degreesPerRadian : ℚ) :
    List Tile → List (Option BingAttribution) → List BingAttribution
  | [], _ => []
  | tile :: tiles, slots =>
    let r := matchTileAgainstSlots tilingScheme degreesPerRadian tile slots
    r.1 ++ collectMatchingAttributions tilingScheme degreesPerRadian tiles r.2

/-- `BingImageryProvider.getMatchingAttributions`: empty if `_attributions`
was never populated; otherwise run the two nested loops starting from a copy
(`slice()`) of the attribution list with every slot occupied. -/
def getMatchingAttributions (attributions : Option (List BingAttribution))
    (tilingScheme : MapTilingScheme) (degreesPerRadian : ℚ) (tiles : List Tile) :
    List BingAttribution :=
  match attributions with
  | none => []
  | some attrs =>
    collectMatchingAttributions tilingScheme degreesPerRadian tiles (attrs.map some)

theorem matchTileAgainstSlots_count (tilingScheme : MapTilingScheme)
    (degreesPerRadian : ℚ) (tile : Tile) (a : BingAttribution) :
    ∀ slots : List (Option BingAttribution),
      ((matchTileAgainstSlots tilingScheme degreesPerRadian tile slots).1.count a) +
          ((matchTileAgainstSlots tilingScheme degreesPerRadian tile slots).2.filterMap id).count a =
        (slots.filterMap id).count a := by
  intro slots
  induction slots with
  | nil => simp [matchTileAgainstSlots]
  | cons slot rest ih =>
    rcases slot with _ | attribution
    · rw [matchTileAgainstSlots]
      simpa using ih
    · rw [matchTileAgainstSlots]
      by_cases hm : attribution.matchesTile tile tilingScheme degreesPerRadian = true
      · simp only [hm, if_true]
        simp only [List.filterMap_cons, id, List.count_cons] at *
        omega
      · simp only [hm, if_false, Bool.false_eq_true]
        simp only [List.filterMap_cons, id, List.count_cons] at *
        omega

theorem matchTileAgainstSlots_matches (tilingScheme : MapTilingScheme)
    (degreesPerRadian : ℚ) (tile : Tile) (a : BingAttribution) :
    ∀ slots : List (Option BingAttribution),
      a ∈ (matchTileAgainstSlots tilingScheme degreesPerRadian tile slots).1 →
        a.matchesTile tile tilingScheme degreesPerRadian = true := by
  intro slots
  induction slots with
  | nil => simp [matchTileAgainstSlots]
  | cons slot rest ih =>
    rcases slot with _ | attribution
    · rw [matchTileAgainstSlots]
      exact ih
    · rw [matchTileAgainstSlots]
      by_cases hm : attribution.matchesTile tile tilingScheme degreesPerRadian = true
      · simp only [hm, if_true]
        intro hmem
        rcases List.mem_cons.mp hmem with h | h
        · subst h; exact hm
        · exact ih h
      · simp only [hm, if_false, Bool.false_eq_true]
        exact ih

theorem collectMatchingAttributions_count (tilingScheme : MapTilingScheme)
    (degreesPerRadian : ℚ) (a : BingAttribution) :
    ∀ (tiles : List Tile) (slots : List (Option BingAttribution)),
      (collectMatchingAttributions tilingScheme degreesPerRadian tiles slots).count a ≤
        (slots.filterMap id).count a := by
  intro tiles
  induction tiles with
  | nil => intro slots; simp [collectMatchingAttributions]
  | cons tile tiles ih =>
    intro slots
    rw [collectMatchingAttributions]
    have hc := matchTileAgainstSlots_count tilingScheme degreesPerRadian tile a slots
    have hrec := ih (matchTileAgainstSlots tilingScheme degreesPerRadian tile slots).2
    rw [List.count_append]
    omega

theorem collectMatchingAttributions_matches (tilingScheme : MapTilingScheme)
    (degreesPerRadian : ℚ) (a : BingAttribution) :
    ∀ (tiles : List Tile) (slots : List (Option BingAttribution)),
      a ∈ collectMatchingAttributions tilingScheme degreesPerRadian tiles slots →
        ∃ t ∈ tiles, a.matchesTile t tilingScheme degreesPerRadian = true := by
  intro tiles
  induction tiles with
  | nil => intro slots h; simp [collectMatchingAttributions] at h
  | cons tile tiles ih =>
    intro slots hmem
    rw [collectMatchingAttributions] at hmem
    rcases List.mem_append.mp hmem with h | h
    · exact ⟨tile, by simp, matchTileAgainstSlots_matches tilingScheme degreesPerRadian tile a slots h⟩
    · obtain ⟨t, ht, hmt⟩ := ih _ h
      exact ⟨t, by simp [ht], hmt⟩

/-- C5: `getMatchingAttributions` returns each attribution of the provider's
attribution list at most once — each returned value occurs no more often than
in the list, so a duplicate-free attribution list yields a duplicate-free
result even if many tiles match the same attribution — and every returned
attribution matches at least one tile of the given list. -/
theorem getMatchingAttributions_spec (attributions : Option (List BingAttribution))
    (tilingScheme : MapTilingScheme) (degreesPerRadian : ℚ) (tiles : List Tile) :
    (∀ a : BingAttribution,
        (getMatchingAttributions attributions tilingScheme degreesPerRadian tiles).count a ≤
          (attributions.getD []).count a) ∧
      ((attributions.getD []).Nodup →
        (getMatchingAttributions attributions tilingScheme degreesPerRadian tiles).Nodup) ∧
      (∀ a ∈ getMatchingAttributions attributions tilingScheme degreesPerRadian tiles,
        ∃ t ∈ tiles, a.matchesTile t tilingScheme degreesPerRadian = true) := by
  have hcount : ∀ a : BingAttribution,
      (getMatchingAttributions attributions tilingScheme degreesPerRadian tiles).count a ≤
        (attributions.getD []).count a := by
    intro a
    rcases attributions with _ | attrs
    · simp [getMatchingAttributions]
    · rw [getMatchingAttributions, Option.getD_some]
      have := collectMatchingAttributions_count tilingScheme degreesPerRadian a tiles
        (attrs.map some)
      simpa [List.filterMap_map] using this
  refine ⟨hcount, ?_, ?_⟩
  · intro hnd
    rw [List.nodup_iff_count_le_one]
    intro a
    exact le_trans (hcount a) (List.nodup_iff_count_le_one.mp hnd a)
  · intro a hmem
    rcases attributions with _ | attrs
    · simp [getMatchingAttributions] at hmem
    · exact collectMatchingAttributions_matches tilingScheme degreesPerRadian a tiles
        (attrs.map some) hmem

/-- A concrete tiling scheme, attribution and tile used to witness C5. -/
def sampleScheme : MapTilingScheme :=
  ⟨fun _ _ _ => ⟨0, 0⟩⟩

def sampleCoverage : Coverage :=
  ⟨-90, -180, 90, 180, 0, 30⟩

def sampleAttribution : BingAttribution :=
  ⟨"HERE".toList, [sampleCoverage]⟩

def sampleTile : Tile :=
  ⟨"1_0_0".toList, 1, true⟩

theorem getMatchingAttributions_spec_witness :
    ((getMatchingAttributions (some [sampleAttribution]) sampleScheme 1 [sampleTile]).count
        sampleAttribution ≤ ((some [sampleAttribution]).getD []).count sampleAttribution) ∧
      (∃ t ∈ [sampleTile],
        sampleAttribution.matchesTile t sampleScheme 1 = true) :=
  ⟨(getMatchingAttributions_spec (some [sampleAttribution]) sampleScheme 1 [sampleTile]).1
      sampleAttribution,
    (getMatchingAttributions_spec (some [sampleAttribution]) sampleScheme 1 [sampleTile]).2.2
      sampleAttribution
      (by
        have hq : QuadId.createFromContentId "1_0_0".toList =
            ⟨.ofInt 1, .ofInt 0, .ofInt 0⟩ := by
          decide
        have hov : sampleCoverage.overlaps ⟨.ofInt 1, .ofInt 0, .ofInt 0⟩ sampleScheme 1 = true := by
          norm_num [Coverage.overlaps, QuadId.getLatLongRange, Range2d.ofTwoPoints, sampleScheme,
            sampleCoverage, jsLtQ, jsGtQ, jsAdd]
        have hm : sampleAttribution.matchesTile sampleTile sampleScheme 1 = true := by
          rw [BingAttribution.matchesTile]
          simp only [sampleAttribution, sampleTile, List.any_cons, List.any_nil, Bool.or_false]
          rw [hq, hov]
        simp [getMatchingAttributions, collectMatchingAttributions, matchTileAgainstSlots, hm])⟩

/-! ## Tile loading (`ImageryProvider.loadTile`, `WebMapTileLoader`) -/

/-- Image formats distinguished by `loadTile`. -/
inductive ImageSourceFormat where
  | Jpeg : ImageSourceFormat
  | Png : ImageSourceFormat
deriving DecidableEq

/-- `ImageSource(data, format)` from imodeljs-common. -/
structure ImageSource where
  data : List Nat
  format : ImageSourceFormat
deriving DecidableEq

/-- The outcome of the HTTP GET issued by `loadTile`: a transport failure
(any thrown/rejected request, caught by the source's `try/catch`) or a
response with body bytes and a `content-type` header. -/
inductive TileFetchResult where
  | failure : TileFetchResult
  | success : List Nat → List Char → TileFetchResult

/-- `ImageryProvider.loadTile`: fetch the tile bytes (the network request is
modelled by its outcome `response`); return `undefined` for an empty body,
for bytes matching the provider's missing-tile test (`matchesMissing` is the
dynamically dispatched `this.matchesMissingTile`), or for an unrecognized
`content-type` (the `assert` there is a debug no-op), and `undefined` for any
transport failure; otherwise wrap the bytes with the detected format. The
source's `!byteArray` guard is never true for a freshly constructed
`Uint8Array`, leaving the length test. -/
def ImageryProvider.loadTile (matchesMissing : List Nat → Bool)
    (response : TileFetchResult) : Option ImageSource :=
  match response with
  | .failure => none
  | .success body contentType =>
    if body.length = 0 then none
    else if matchesMissing body then none
    else if contentType = "image/jpeg".toList then some ⟨body, .Jpeg⟩
    else if contentType = "image/png".toList then some ⟨body, .Png⟩
    else none

/-- C6: `ImageryProvider.loadTile` returns `undefined` (without throwing) for
an empty response body, for bytes matching the provider's missing-tile
fingerprint test, and for any transport failure; for accepted bytes,
content-type `image/jpeg` yields a JPEG `ImageSource`, `image/png` a PNG
`ImageSource`, and any other content-type `undefined`. -/
theorem imageryProvider_loadTile_spec (matchesMissing : List Nat → Bool)
    (body : List Nat) (contentType : List Char) :
    ImageryProvider.loadTile matchesMissing .failure = none ∧
      ImageryProvider.loadTile matchesMissing (.success [] contentType) = none ∧
      (matchesMissing body = true →
        ImageryProvider.loadTile matchesMissing (.success body contentType) = none) ∧
      (body ≠ [] → matchesMissing body = false →
        ImageryProvider.loadTile matchesMissing (.success body "image/jpeg".toList) =
            some ⟨body, .Jpeg⟩ ∧
          ImageryProvider.loadTile matchesMissing (.success body "image/png".toList) =
            some ⟨body, .Png⟩ ∧
          (contentType ≠ "image/jpeg".toList → contentType ≠ "image/png".toList →
            ImageryProvider.loadTile matchesMissing (.success body contentType) = none)) := by
  refine ⟨rfl, rfl, ?_, ?_⟩
  · intro hm
    rw [ImageryProvider.loadTile]
    by_cases hb : body.length = 0
    · rw [if_pos hb]
    · rw [if_neg hb, if_pos hm]
  · intro hb hm
    have hb' : ¬body.length = 0 := by simpa [List.length_eq_zero] using hb
    refine ⟨?_, ?_, ?_⟩
    · rw [ImageryProvider.loadTile, if_neg hb', if_neg (by simp [hm]), if_pos rfl]
    · rw [ImageryProvider.loadTile, if_neg hb', if_neg (by simp [hm]),
        if_neg (by decide), if_pos rfl]
    · intro hj hp
      rw [ImageryProvider.loadTile, if_neg hb', if_neg (by simp [hm]), if_neg hj, if_neg hp]

theorem imageryProvider_loadTile_spec_witness :
    ImageryProvider.loadTile (fun _ => false) (.success [7] "image/jpeg".toList) =
        some ⟨[7], .Jpeg⟩ ∧
      ImageryProvider.loadTile (fun _ => false) (.success [7] "image/png".toList) =
        some ⟨[7], .Png⟩ ∧
      ImageryProvider.loadTile (fun _ => false) (.success [7] "text/html".toList) = none :=
  have h := (imageryProvider_loadTile_spec (fun _ => false) [7] "text/html".toList).2.2.2
    (by decide) rfl
  ⟨h.1, h.2.1, h.2.2 (by decide) (by decide)⟩

/-- The content produced for a tile: at most a render graphic. -/
structure TileContent (Graphic : Type) where
  graphic : Option Graphic

/-- `WebMapTileLoader.loadTextureImage`: decode the image source
(`imageElementFromImageSource`, whose outcome is modelled by `decodeResult`;
its rejection is swallowed by `.catch` and the surrounding `try/catch`), then
— after the asynchronous decode — poll `isCanceled` and drop the result if
canceled, else create the texture (which may itself yield `undefined`). -/
def WebMapTileLoader.loadTextureImage {I T : Type} (decodeResult : Option I)
    (isCanceled : Unit → Bool) (createTextureFromImage : I → Option T) : Option T :=
  match decodeResult with
  | none => none
  | some image => if isCanceled () then none else createTextureFromImage image

/-- `WebMapTileLoader.loadTileContent`: defaults the cancellation predicate to
`() => !tile.isLoading`, loads the texture, and returns an empty content
object when there is no texture; otherwise builds the tile graphic and batch
(`system.createTile` / `system.createBatch`, abstract render-system
operations). The `assert`s and corner reprojection do not affect the
produced content. -/
def WebMapTileLoader.loadTileContent {I T G : Type} (tile : Tile)
    (isCanceled : Option (Unit → Bool)) (decodeResult : Option I)
    (createTextureFromImage : I → Option T) (createTile : T → Option G)
    (createBatch : G → G) : TileContent G :=
  let isCanceled := match isCanceled with
    | none => fun _ => !tile.isLoading
    | some f => f
  let texture := WebMapTileLoader.loadTextureImage decodeResult isCanceled createTextureFromImage
  match texture with
  | none => ⟨none⟩
  | some texture =>
    match createTile texture with
    | none => ⟨none⟩
    | some graphic => ⟨some (createBatch graphic)⟩

/-- C7: whenever the caller-supplied cancellation predicate reads true at the
post-decode poll (in particular when the load was canceled between the tile
fetch and the image decode), `WebMapTileLoader.loadTileContent` produces a
content object with no graphic — the tile's content is never given a texture
— and does not throw (the embedding is total; the source swallows decode
rejections). -/
theorem loadTileContent_canceled {I T G : Type} (tile : Tile) (f : Unit → Bool)
    (decodeResult : Option I) (createTextureFromImage : I → Option T)
    (createTile : T → Option G) (createBatch : G → G) (h : f () = true) :
    (WebMapTileLoader.loadTileContent tile (some f) decodeResult createTextureFromImage
        createTile createBatch).graphic = none := by
  rw [WebMapTileLoader.loadTileContent]
  rcases decodeResult with _ | image
  · rfl
  · simp only [WebMapTileLoader.loadTextureImage, h, if_true]

theorem loadTileContent_canceled_witness :
    (WebMapTileLoader.loadTileContent ⟨"1_0_0".toList, 1, true⟩ (some fun _ => true)
        (some (3 : Nat)) (fun i => some i) (fun t => some (t + 1)) id).graphic = none :=
  loadTileContent_canceled ⟨"1_0_0".toList, 1, true⟩ (fun _ => true) (some 3)
    (fun i => some i) (fun t => some (t + 1)) id rfl

/-! ## Selected-tile draw order (`MapTileLoaderBase.processSelectedTiles`) -/

/-- `MapTileLoaderBase.processSelectedTiles`: sort the selected tiles
ascending by depth (`Array.sort` with comparator `lhs.depth - rhs.depth`,
modelled as a merge sort by the induced total preorder) so lo-res tiles draw
before hi-res tiles. -/
def processSelectedTiles (selected : List Tile) : List Tile :=
  selected.mergeSort fun lhs rhs => lhs.depth ≤ rhs.depth

/-- C8: `processSelectedTiles` returns a permutation of the input list that is
sorted in ascending order of tile depth, so every coarser (lower-depth) tile
precedes every finer (higher-depth) tile in the returned draw order. -/
theorem processSelectedTiles_spec (selected : List Tile) :
    (processSelectedTiles selected).Perm selected ∧
      List.Sorted (fun lhs rhs : Tile => lhs.depth ≤ rhs.depth)
        (processSelectedTiles selected) := by
  constructor
  · exact List.mergeSort_perm selected _
  · have hs := @List.sorted_mergeSort Tile
      (fun lhs rhs : Tile => decide (lhs.depth ≤ rhs.depth))
      (fun a b c h1 h2 => by simp at *; omega)
      (fun a b => by simp [Nat.le_total])
      selected
    refine hs.imp ?_
    intro a b h
    simpa using h

/-! ## Tile tree identity comparison (`BackgroundMapTreeSupplier.compareTileTreeIds`) -/

/-- Lexicographic strict comparison of strings by code units (the JavaScript
`<` on strings). -/
def strLt : List Char → List Char → Bool
  | [], [] => false
  | [], _ :: _ => true
  | _ :: _, [] => false
  | a :: as, b :: bs => if a < b then true else if b < a then false else strLt as bs

/-- Modelled from the spec: `compareStrings` from @bentley/bentleyjs-core
(not under `src/`) is the "string compare" of the identity tuple's provider
name, a total order comparator returning `-1 | 0 | 1`. -/
def compareStrings (a b : List Char) : Int :=
  if a = b then 0 else if strLt a b then -1 else 1

/-- Modelled from the spec: `compareNumbers` from @bentley/bentleyjs-core is
the "numeric compare" total order comparator returning `-1 | 0 | 1`. -/
def compareNumbers (a b : ℚ) : Int :=
  if a < b then -1 else if b < a then 1 else 0

/-- Modelled from the spec: `compareBooleans` from @bentley/bentleyjs-core
orders `false` before `true` and returns `-1 | 0 | 1`. -/
def compareBooleans (a b : Bool) : Int :=
  if a = b then 0 else if b then -1 else 1

/-- `BackgroundMapTreeId`: the identity tuple keying a background-map tile
tree (provider name, map type, ground bias, drape flag). -/
structure BackgroundMapTreeId where
  providerName : List Char
  mapType : ℚ
  groundBias : ℚ
  forDrape : Bool
deriving DecidableEq

/-- `BackgroundMapTreeSupplier.compareTileTreeIds`: compare provider names,
then map types, then ground biases, then drape flags, stopping at the first
nonzero comparison. -/
def compareTileTreeIds (lhs rhs : BackgroundMapTreeId) : Int :=
  let cmp1 := compareStrings lhs.providerName rhs.providerName
  if cmp1 = 0 then
    let cmp2 := compareNumbers lhs.mapType rhs.mapType
    if cmp2 = 0 then
      let cmp3 := compareNumbers lhs.groundBias rhs.groundBias
      if cmp3 = 0 then
        compareBooleans lhs.forDrape rhs.forDrape
      else cmp3
    else cmp2
  else cmp1

theorem strLt_irrefl (a : List Char) : strLt a a = false := by
  induction a with
  | nil => rfl
  | cons c cs ih => simp [strLt, ih]

theorem strLt_asymm (a b : List Char) (h : strLt a b = true) : strLt b a = false := by
  induction a generalizing b with
  | nil =>
    cases b with
    | nil => simpa [strLt] using h
    | cons y ys => simp [strLt]
  | cons x xs ih =>
    cases b with
    | nil => simp [strLt] at h
    | cons y ys =>
      rw [strLt] at h ⊢
      rcases lt_trichotomy x y with hxy | hxy | hxy
      · simp [hxy, not_lt_of_lt hxy, ne_of_gt hxy]
      · subst hxy
        simp only [lt_irrefl, if_false, Bool.false_eq_true] at h ⊢
        exact ih ys (by simpa using h)
      · simp [hxy, not_lt_of_lt hxy] at h

theorem strLt_trans (a b c : List Char) (h1 : strLt a b = true) (h2 : strLt b c = true) :
    strLt a c = true := by
  induction a generalizing b c with
  | nil =>
    cases c with
    | nil =>
      cases b with
      | nil => simpa [strLt] using h1
      | cons y ys => simp [strLt] at h2
    | cons z zs => simp [strLt]
  | cons x xs ih =>
    cases b with
    | nil => simp [strLt] at h1
    | cons y ys =>
      cases c with
      | nil => simp [strLt] at h2
      | cons z zs =>
        rw [strLt] at h1 h2 ⊢
        rcases lt_trichotomy x y with hxy | hxy | hxy
        · rcases lt_trichotomy y z with hyz | hyz | hyz
          · simp [lt_trans hxy hyz]
          · subst hyz; simp [hxy]
          · simp [hyz, not_lt_of_lt hyz] at h2
        · subst hxy
          rcases lt_trichotomy x z with hxz | hxz | hxz
          · simp [hxz]
          · subst hxz
            simp only [lt_irrefl, if_false, Bool.false_eq_true] at h1 h2 ⊢
            exact ih ys zs (by simpa using h1) (by simpa using h2)
          · simp [hxz, not_lt_of_lt hxz] at h2
        · simp [hxy, not_lt_of_lt hxy] at h1

theorem strLt_connex (a b : List Char) (h : a ≠ b) :
    strLt a b = true ∨ strLt b a = true := by
  induction a generalizing b with
  | nil =>
    cases b with
    | nil => exact absurd rfl h
    | cons y ys => left; simp [strLt]
  | cons x xs ih =>
    cases b with
    | nil => right; simp [strLt]
    | cons y ys =>
      rcases lt_trichotomy x y with hxy | hxy | hxy
      · left; rw [strLt]; simp [hxy]
      · subst hxy
        have hne : xs ≠ ys := fun hh => h (by rw [hh])
        rcases ih ys hne with h1 | h1
        · left; rw [strLt]; simpa using h1
        · right; rw [strLt]; simpa using h1
      · right; rw [strLt]; simp [hxy, not_lt_of_lt hxy]

theorem compareStrings_eq_zero_iff (a b : List Char) :
    compareStrings a b = 0 ↔ a = b := by
  rw [compareStrings]
  split_ifs with h1 h2
  · simp [h1]
  · simp [h1]
  · simp [h1]

theorem compareStrings_eq_neg_one_iff (a b : List Char) :
    compareStrings a b = -1 ↔ strLt a b = true := by
  rw [compareStrings]
  split_ifs with h1 h2
  · subst h1; simp [strLt_irrefl]
  · simp [h2]
  · simp [h2]

theorem compareStrings_eq_one_iff (a b : List Char) :
    compareStrings a b = 1 ↔ strLt b a = true := by
  rw [compareStrings]
  split_ifs with h1 h2
  · subst h1; simp [strLt_irrefl]
  · have := strLt_asymm a b h2
    simp [this]
  · constructor
    · intro _
      rcases strLt_connex a b h1 with hc | hc
      · exact absurd hc h2
      · exact hc
    · intro _; rfl

theorem compareNumbers_eq_zero_iff (a b : ℚ) : compareNumbers a b = 0 ↔ a = b := by
  rw [compareNumbers]
  split_ifs with h1 h2
  · constructor
    · intro hh; exact absurd hh (by decide)
    · intro hh; subst hh; exact absurd h1 (lt_irrefl a)
  · constructor
    · intro hh; exact absurd hh (by decide)
    · intro hh; subst hh; exact absurd h2 (lt_irrefl a)
  · simp [le_antisymm (le_of_not_lt h2) (le_of_not_lt h1)]

theorem compareNumbers_eq_neg_one_iff (a b : ℚ) : compareNumbers a b = -1 ↔ a < b := by
  rw [compareNumbers]
  split_ifs with h1 h2
  · simp [h1]
  · constructor
    · intro hh; exact absurd hh (by decide)
    · intro hh; exact absurd hh (not_lt_of_lt h2)
  · constructor
    · intro hh; exact absurd hh (by decide)
    · intro hh; exact absurd hh h1

theorem compareNumbers_eq_one_iff (a b : ℚ) : compareNumbers a b = 1 ↔ b < a := by
  rw [compareNumbers]
  split_ifs with h1 h2
  · constructor
    · intro hh; exact absurd hh (by decide)
    · intro hh; exact absurd hh (not_lt_of_lt h1)
  · simp [h2]
  · constructor
    · intro hh; exact absurd hh (by decide)
    · intro hh; exact absurd hh h2

theorem compareBooleans_eq_zero_iff (a b : Bool) : compareBooleans a b = 0 ↔ a = b := by
  rcases a <;> rcases b <;> simp [compareBooleans]

theorem compareBooleans_eq_neg_one_iff (a b : Bool) :
    compareBooleans a b = -1 ↔ a = false ∧ b = true := by
  rcases a <;> rcases b <;> simp [compareBooleans]

theorem compareBooleans_eq_one_iff (a b : Bool) :
    compareBooleans a b = 1 ↔ a = true ∧ b = false := by
  rcases a <;> rcases b <;> simp [compareBooleans]

/-- The strict lexicographic order on identity tuples that
`compareTileTreeIds` decides. -/
def treeIdLt (lhs rhs : BackgroundMapTreeId) : Prop :=
  strLt lhs.providerName rhs.providerName = true ∨
    (lhs.providerName = rhs.providerName ∧
      (lhs.mapType < rhs.mapType ∨
        (lhs.mapType = rhs.mapType ∧
          (lhs.groundBias < rhs.groundBias ∨
            (lhs.groundBias = rhs.groundBias ∧
              lhs.forDrape = false ∧ rhs.forDrape = true)))))

theorem compareTileTreeIds_eq_zero_iff (lhs rhs : BackgroundMapTreeId) :
    compareTileTreeIds lhs rhs = 0 ↔ lhs = rhs := by
  simp only [compareTileTreeIds]
  by_cases h1 : compareStrings lhs.providerName rhs.providerName = 0
  · rw [if_pos h1]
    rw [compareStrings_eq_zero_iff] at h1
    by_cases h2 : compareNumbers lhs.mapType rhs.mapType = 0
    · rw [if_pos h2]
      rw [compareNumbers_eq_zero_iff] at h2
      by_cases h3 : compareNumbers lhs.groundBias rhs.groundBias = 0
      · rw [if_pos h3, compareBooleans_eq_zero_iff]
        rw [compareNumbers_eq_zero_iff] at h3
        constructor
        · intro h4
          rcases lhs; rcases rhs
          simp_all
        · intro h4; rw [h4]
      · rw [if_neg h3]
        constructor
        · intro hh; exact absurd hh h3
        · intro hh; subst hh
          exact absurd ((compareNumbers_eq_zero_iff _ _).mpr rfl) h3
    · rw [if_neg h2]
      constructor
      · intro hh; exact absurd hh h2
      · intro hh; subst hh
        exact absurd ((compareNumbers_eq_zero_iff _ _).mpr rfl) h2
  · rw [if_neg h1]
    constructor
    · intro hh; exact absurd hh h1
    · intro hh; subst hh
      exact absurd ((compareStrings_eq_zero_iff _ _).mpr rfl) h1

theorem compareTileTreeIds_eq_neg_one_iff (lhs rhs : BackgroundMapTreeId) :
    compareTileTreeIds lhs rhs = -1 ↔ treeIdLt lhs rhs := by
  simp only [compareTileTreeIds, treeIdLt]
  by_cases h1 : compareStrings lhs.providerName rhs.providerName = 0
  · rw [if_pos h1]
    rw [compareStrings_eq_zero_iff] at h1
    have hnlt : ¬strLt lhs.providerName rhs.providerName = true := by
      rw [h1]; simp [strLt_irrefl]
    by_cases h2 : compareNumbers lhs.mapType rhs.mapType = 0
    · rw [if_pos h2]
      rw [compareNumbers_eq_zero_iff] at h2
      have hnlt2 : ¬lhs.mapType < rhs.mapType := by rw [h2]; exact lt_irrefl _
      by_cases h3 : compareNumbers lhs.groundBias rhs.groundBias = 0
      · rw [if_pos h3, compareBooleans_eq_neg_one_iff]
        rw [compareNumbers_eq_zero_iff] at h3
        have hnlt3 : ¬lhs.groundBias < rhs.groundBias := by rw [h3]; exact lt_irrefl _
        constructor
        · intro hh
          exact Or.inr ⟨h1, Or.inr ⟨h2, Or.inr ⟨h3, hh⟩⟩⟩
        · rintro (hh | ⟨-, hh2 | ⟨-, hh3 | ⟨-, hh⟩⟩⟩)
          · exact absurd hh hnlt
          · exact absurd hh2 hnlt2
          · exact absurd hh3 hnlt3
          · exact hh
      · rw [if_neg h3, compareNumbers_eq_neg_one_iff]
        rw [compareNumbers_eq_zero_iff] at h3
        constructor
        · intro hh
          exact Or.inr ⟨h1, Or.inr ⟨h2, Or.inl hh⟩⟩
        · rintro (hh | ⟨-, hh2 | ⟨-, hh3 | ⟨hh3, -⟩⟩⟩)
          · exact absurd hh hnlt
          · exact absurd hh2 hnlt2
          · exact hh3
          · exact absurd hh3 h3
    · rw [if_neg h2, compareNumbers_eq_neg_one_iff]
      rw [compareNumbers_eq_zero_iff] at h2
      constructor
      · intro hh
        exact Or.inr ⟨h1, Or.inl hh⟩
      · rintro (hh | ⟨-, hh2 | ⟨hh2, -⟩⟩)
        · exact absurd hh hnlt
        · exact hh2
        · exact absurd hh2 h2
  · rw [if_neg h1, compareStrings_eq_neg_one_iff]
    rw [compareStrings_eq_zero_iff] at h1
    constructor
    · intro hh; exact Or.inl hh
    · rintro (hh | ⟨hh1, -⟩)
      · exact hh
      · exact absurd hh1 h1

theorem compareTileTreeIds_eq_one_iff (lhs rhs : BackgroundMapTreeId) :
    compareTileTreeIds lhs rhs = 1 ↔ treeIdLt rhs lhs := by
  simp only [compareTileTreeIds, treeIdLt]
  by_cases h1 : compareStrings lhs.providerName rhs.providerName = 0
  · rw [if_pos h1]
    rw [compareStrings_eq_zero_iff] at h1
    have hnlt : ¬strLt rhs.providerName lhs.providerName = true := by
      rw [h1]; simp [strLt_irrefl]
    by_cases h2 : compareNumbers lhs.mapType rhs.mapType = 0
    · rw [if_pos h2]
      rw [compareNumbers_eq_zero_iff] at h2
      have hnlt2 : ¬rhs.mapType < lhs.mapType := by rw [h2]; exact lt_irrefl _
      by_cases h3 : compareNumbers lhs.groundBias rhs.groundBias = 0
      · rw [if_pos h3, compareBooleans_eq_one_iff]
        rw [compareNumbers_eq_zero_iff] at h3
        have hnlt3 : ¬rhs.groundBias < lhs.groundBias := by rw [h3]; exact lt_irrefl _
        constructor
        · rintro ⟨ht, hf⟩
          exact Or.inr ⟨h1.symm, Or.inr ⟨h2.symm, Or.inr ⟨h3.symm, hf, ht⟩⟩⟩
        · rintro (hh | ⟨-, hh2 | ⟨-, hh3 | ⟨-, hf, ht⟩⟩⟩)
          · exact absurd hh hnlt
          · exact absurd hh2 hnlt2
          · exact absurd hh3 hnlt3
          · exact ⟨ht, hf⟩
      · rw [if_neg h3, compareNumbers_eq_one_iff]
        rw [compareNumbers_eq_zero_iff] at h3
        constructor
        · intro hh
          exact Or.inr ⟨h1.symm, Or.inr ⟨h2.symm, Or.inl hh⟩⟩
        · rintro (hh | ⟨-, hh2 | ⟨-, hh3 | ⟨hh3, -⟩⟩⟩)
          · exact absurd hh hnlt
          · exact absurd hh2 hnlt2
          · exact hh3
          · exact absurd hh3.symm h3
    · rw [if_neg h2, compareNumbers_eq_one_iff]
      rw [compareNumbers_eq_zero_iff] at h2
      constructor
      · intro hh
        exact Or.inr ⟨h1.symm, Or.inl hh⟩
      · rintro (hh | ⟨-, hh2 | ⟨hh2, -⟩⟩)
        · exact absurd hh hnlt
        · exact hh2
        · exact absurd hh2.symm h2
  · rw [if_neg h1, compareStrings_eq_one_iff]
    rw [compareStrings_eq_zero_iff] at h1
    constructor
    · intro hh; exact Or.inl hh
    · rintro (hh | ⟨hh1, -⟩)
      · exact hh
      · exact absurd hh1.symm h1

theorem compareStrings_valset (a b : List Char) :
    compareStrings a b = -1 ∨ compareStrings a b = 0 ∨ compareStrings a b = 1 := by
  rw [compareStrings]; split_ifs <;> simp

theorem compareNumbers_valset (a b : ℚ) :
    compareNumbers a b = -1 ∨ compareNumbers a b = 0 ∨ compareNumbers a b = 1 := by
  rw [compareNumbers]; split_ifs <;> simp

theorem compareBooleans_valset (a b : Bool) :
    compareBooleans a b = -1 ∨ compareBooleans a b = 0 ∨ compareBooleans a b = 1 := by
  rcases a <;> rcases b <;> simp [compareBooleans]

theorem compareTileTreeIds_valset (lhs rhs : BackgroundMapTreeId) :
    compareTileTreeIds lhs rhs = -1 ∨ compareTileTreeIds lhs rhs = 0 ∨
      compareTileTreeIds lhs rhs = 1 := by
  simp only [compareTileTreeIds]
  split_ifs
  · exact compareBooleans_valset _ _
  · exact compareNumbers_valset _ _
  · exact compareNumbers_valset _ _
  · exact compareStrings_valset _ _

theorem treeIdLt_asymm (a b : BackgroundMapTreeId) (h : treeIdLt a b) :
    ¬treeIdLt b a := by
  intro h2
  rcases h with hs | ⟨he, h⟩
  · rcases h2 with hs2 | ⟨he2, -⟩
    · exact absurd hs2 (by simpa using strLt_asymm _ _ hs)
    · rw [he2] at hs; simp [strLt_irrefl] at hs
  · rcases h2 with hs2 | ⟨he2, h2⟩
    · rw [he] at hs2; simp [strLt_irrefl] at hs2
    · rcases h with hm | ⟨hme, h⟩
      · rcases h2 with hm2 | ⟨hme2, -⟩
        · exact absurd hm2 (not_lt_of_lt hm)
        · rw [hme2] at hm; exact absurd hm (lt_irrefl _)
      · rcases h2 with hm2 | ⟨hme2, h2⟩
        · rw [hme] at hm2; exact absurd hm2 (lt_irrefl _)
        · rcases h with hg | ⟨hge, hd⟩
          · rcases h2 with hg2 | ⟨hge2, -⟩
            · exact absurd hg2 (not_lt_of_lt hg)
            · rw [hge2] at hg; exact absurd hg (lt_irrefl _)
          · rcases h2 with hg2 | ⟨hge2, hd2⟩
            · rw [hge] at hg2; exact absurd hg2 (lt_irrefl _)
            · rcases hd with ⟨hdf, hdt⟩
              rcases hd2 with ⟨hdf2, hdt2⟩
              rw [hdf] at hdt2
              cases hdt2

theorem treeIdLt_trans (a b c : BackgroundMapTreeId) (h1 : treeIdLt a b)
    (h2 : treeIdLt b c) : treeIdLt a c := by
  rcases h1 with hs1 | ⟨he1, h1⟩
  · rcases h2 with hs2 | ⟨he2, -⟩
    · exact Or.inl (strLt_trans _ _ _ hs1 hs2)
    · rw [he2] at hs1; exact Or.inl hs1
  · rcases h2 with hs2 | ⟨he2, h2⟩
    · exact Or.inl (by rw [he1]; exact hs2)
    · refine Or.inr ⟨he1.trans he2, ?_⟩
      rcases h1 with hm1 | ⟨hme1, h1⟩
      · rcases h2 with hm2 | ⟨hme2, -⟩
        · exact Or.inl (lt_trans hm1 hm2)
        · rw [hme2] at hm1; exact Or.inl hm1
      · rcases h2 with hm2 | ⟨hme2, h2⟩
        · rw [hme1]; exact Or.inl hm2
        · refine Or.inr ⟨hme1.trans hme2, ?_⟩
          rcases h1 with hg1 | ⟨hge1, hd1⟩
          · rcases h2 with hg2 | ⟨hge2, -⟩
            · exact Or.inl (lt_trans hg1 hg2)
            · rw [hge2] at hg1; exact Or.inl hg1
          · rcases h2 with hg2 | ⟨hge2, hd2⟩
            · rw [hge1]; exact Or.inl hg2
            · rcases hd1 with ⟨hdf1, hdt1⟩
              rcases hd2 with ⟨hdf2, -⟩
              rw [hdt1] at hdf2
              cases hdf2

/-- C9: `compareTileTreeIds` returns `-1`, `0`, or `1`, deciding the
lexicographic comparison of the identity tuple in the fixed order provider
name (string compare), map type, ground bias (numeric compares), then drape
flag, and this comparison is a strict total order: it returns `0` exactly when
all four fields are equal, its sign is antisymmetric, and it is transitive. -/
theorem compareTileTreeIds_spec (a b c : BackgroundMapTreeId) :
    (compareTileTreeIds a b = -1 ∨ compareTileTreeIds a b = 0 ∨
        compareTileTreeIds a b = 1) ∧
      (compareTileTreeIds a b = -1 ↔ treeIdLt a b) ∧
      (compareTileTreeIds a b = 0 ↔ a = b) ∧
      compareTileTreeIds b a = -compareTileTreeIds a b ∧
      (compareTileTreeIds a b = -1 → compareTileTreeIds b c = -1 →
        compareTileTreeIds a c = -1) := by
  refine ⟨compareTileTreeIds_valset a b, compareTileTreeIds_eq_neg_one_iff a b,
    compareTileTreeIds_eq_zero_iff a b, ?_, ?_⟩
  · rcases compareTileTreeIds_valset a b with h | h | h
    · rw [h]
      rw [compareTileTreeIds_eq_neg_one_iff] at h
      rw [(compareTileTreeIds_eq_one_iff b a).mpr h]
      norm_num
    · rw [h]
      rw [compareTileTreeIds_eq_zero_iff] at h
      subst h
      rw [(compareTileTreeIds_eq_zero_iff a a).mpr rfl]
      norm_num
    · rw [h]
      rw [compareTileTreeIds_eq_one_iff] at h
      rw [(compareTileTreeIds_eq_neg_one_iff b a).mpr h]
  · intro h1 h2
    rw [compareTileTreeIds_eq_neg_one_iff] at h1 h2 ⊢
    exact treeIdLt_trans a b c h1 h2

theorem compareTileTreeIds_spec_witness :
    compareTileTreeIds ⟨"BingProvider".toList, 0, 0, false⟩
        ⟨"MapBoxProvider".toList, 0, 0, true⟩ = -1 :=
  (compareTileTreeIds_spec ⟨"BingProvider".toList, 0, 0, false⟩
      ⟨"BingProvider".toList, 0, 0, true⟩
      ⟨"MapBoxProvider".toList, 0, 0, true⟩).2.2.2.2 (by decide) (by decide)

/-! ## Missing-tile fingerprint (`matchesMissingTile`) -/

/-- The base `ImageryProvider.matchesMissingTile`: always false. -/
def baseMatchesMissingTile (_tileData : List Nat) : Bool :=
  false

/-- The sampling loop of `BingImageryProvider.matchesMissingTile`:
`for (i = 0; i < tileData.length; i += 10)`, failing on the first sampled
byte that differs. -/
def missingTileLoop (missing tileData : List Nat) (i : Nat) : Bool :=
  if i < tileData.length then
    if missing.getD i 0 ≠ tileData.getD i 0 then false
    else missingTileLoop missing tileData (i + 10)
  else true
termination_by tileData.length - i
decreasing_by
  omega

/-- `BingImageryProvider.matchesMissingTile`: false while no fingerprint has
been captured (`_missingTileData` unset), false on a length mismatch, else
compare every 10th byte. -/
def bingMatchesMissingTile (missingTileData : Option (List Nat))
    (tileData : List Nat) : Bool :=
  match missingTileData with
  | none => false
  | some missing =>
    if tileData.length ≠ missing.length then false
    else missingTileLoop missing tileData 0

theorem missingTileLoop_spec (missing tileData : List Nat) (i : Nat) :
    missingTileLoop missing tileData i = true ↔
      ∀ j < tileData.length, i ≤ j → (j - i) % 10 = 0 →
        missing.getD j 0 = tileData.getD j 0 := by
  have H : ∀ n i, tileData.length - i ≤ n →
      (missingTileLoop missing tileData i = true ↔
        ∀ j < tileData.length, i ≤ j → (j - i) % 10 = 0 →
          missing.getD j 0 = tileData.getD j 0) := by
    intro n
    induction n with
    | zero =>
      intro i hle
      rw [missingTileLoop, if_neg (by omega)]
      simp only [true_iff]
      intro j hj hij _
      omega
    | succ n ihn =>
      intro i hle
      rw [missingTileLoop]
      by_cases hi : i < tileData.length
      · rw [if_pos hi]
        by_cases hd : missing.getD i 0 ≠ tileData.getD i 0
        · rw [if_pos hd]
          simp only [Bool.false_eq_true, false_iff]
          intro hall
          exact hd (hall i hi (le_refl i) (by omega))
        · rw [if_neg hd]
          push_neg at hd
          rw [ihn (i + 10) (by omega)]
          constructor
          · intro hnext j hj hij hmod
            rcases Nat.lt_or_ge j (i + 10) with hlt | hge
            · have : j = i := by omega
              subst this
              exact hd
            · exact hnext j hj hge (by omega)
          · intro hall j hj hij hmod
            exact hall j hj (by omega) (by omega)
      · rw [if_neg hi]
        simp only [true_iff]
        intro j hj hij _
        omega
  exact H (tileData.length - i) i (le_refl _)

/-- C10: the base `ImageryProvider.matchesMissingTile` returns false for every
input; `BingImageryProvider.matchesMissingTile` returns false before any
missing-tile fingerprint has been captured, and with a fingerprint present it
returns true exactly when `tileData` has the same length as the fingerprint
and the two arrays agree at every in-range index that is a multiple of 10 (so
it returns true only under those conditions). -/
theorem matchesMissingTile_spec (missing tileData : List Nat) :
    baseMatchesMissingTile tileData = false ∧
      bingMatchesMissingTile none tileData = false ∧
      (bingMatchesMissingTile (some missing) tileData = true ↔
        tileData.length = missing.length ∧
          ∀ j < tileData.length, j % 10 = 0 →
            missing.getD j 0 = tileData.getD j 0) := by
  refine ⟨rfl, rfl, ?_⟩
  rw [bingMatchesMissingTile]
  by_cases hl : tileData.length ≠ missing.length
  · rw [if_pos hl]
    simp only [Bool.false_eq_true, false_iff]
    intro hh
    exact hl hh.1
  · rw [if_neg hl]
    push_neg at hl
    rw [missingTileLoop_spec]
    constructor
    · intro hall
      exact ⟨hl, fun j hj hmod => hall j hj (Nat.zero_le j) (by omega)⟩
    · intro hh j hj _ hmod
      exact hh.2 j hj (by omega)
